import Mathlib

/-!
Verification development for the picosnitch event-capture and correlation
engine (src/picosnitch.py).  The Python source is shallowly embedded below:
pure functions become Lean functions, the mutable snitch dictionary becomes
an explicit `SnitchState` record threaded through the update functions, and
external collaborators (psutil, difflib, socket, shlex, the VirusTotal
client, the filesystem) are modelled as oracle function fields of `Oracles`,
specified only at their call interfaces.  Python dictionaries are modelled
as insertion-ordered association lists (`dictGet` / `dictSet` / `dictModify`),
matching CPython semantics of lookup, in-place update and append-on-new-key.
-/

namespace Picosnitch

/-- A Python value that can appear in the heterogeneous
`Config["Remote address unlog"]` list or as a dictionary key: picosnitch
stores both ints (pids, ports) and strings there.  Python equality between
an int and a str is always `False`, which the derived `DecidableEq`
reproduces since the constructors differ. -/
inductive PyVal where
  | int (n : Int)
  | str (s : String)
deriving DecidableEq, Repr

/-- Process descriptor: the fields of the dicts stored in `known_pids`,
i.e. psutil `as_dict(attrs=["name", "exe", "cmdline", "pid"])` results and
exec events after their `exe` field has been filled in by `process_queue`. -/
structure ProcInfo where
  name : String
  exe : String
  cmdline : String
  pid : Nat
deriving DecidableEq, Repr

/-- The `conn` dictionary passed to `update_snitch`: remote ip and port.
Exec-only events use `ip = ""` and `port = 0`. -/
structure ConnInfo where
  ip : String
  port : Nat
deriving DecidableEq, Repr

/-- One value of `snitch["Processes"]`: the per-executable ledger record. -/
structure ProcessEntry where
  name : String
  cmdlines : List String
  firstSeen : String
  lastSeen : String
  daysSeen : Nat
  ports : List Nat
  remoteAddresses : List String
  results : List (String × String)
deriving DecidableEq, Repr

/-- The configuration keys of `snitch["Config"]` consulted by the embedded
code paths.  The VirusTotal keys are part of the external reputation-lookup
collaborator and are absorbed into the `vtResults` oracle. -/
structure Config where
  onlyLogConnections : Bool
  remoteAddressUnlog : List PyVal
deriving DecidableEq, Repr

/-- The snitch dictionary: the in-memory ledger. -/
structure SnitchState where
  config : Config
  errors : List String
  latestEntries : List String
  names : List (String × List String)
  processes : List (String × ProcessEntry)
  remoteAddresses : List (String × List String)
deriving DecidableEq, Repr

/-- The pid table `known_pids`.  Its keys are `PyVal` because the source
mixes integer pids (`process_queue`) with the literal string key "pid"
written by `initial_poll` (line 179). -/
abbrev PidTable := List (PyVal × ProcInfo)

/-- Python dict lookup on an insertion-ordered association list. -/
def dictGet {K V : Type} [DecidableEq K] : List (K × V) → K → Option V
  | [], _ => none
  | (k, v) :: rest, k2 => if k = k2 then some v else dictGet rest k2

/-- Python dict key-membership test. -/
def dictHasKey {K V : Type} [DecidableEq K] (d : List (K × V)) (k : K) : Bool :=
  (dictGet d k).isSome

/-- Python dict assignment: update in place if the key exists, otherwise
append the new pair at the end (CPython insertion order). -/
def dictSet {K V : Type} [DecidableEq K] : List (K × V) → K → V → List (K × V)
  | [], k, v => [(k, v)]
  | (k2, v2) :: rest, k, v =>
    if k2 = k then (k, v) :: rest else (k2, v2) :: dictSet rest k v

/-- In-place mutation of the value stored under a key, leaving all other
pairs untouched (models Python `entry = d[k]; ...mutate entry...`). -/
def dictModify {K V : Type} [DecidableEq K] (d : List (K × V)) (k : K) (f : V → V) :
    List (K × V) :=
  d.map fun p => if p.1 = k then (k, f p.2) else p

/-- Python `list.insert(i, x)`: the index is clamped to the list length. -/
def pyInsert {α : Type} (i : Nat) (x : α) (l : List α) : List α :=
  l.take i ++ x :: l.drop i

/-- Split a character list at every character satisfying `p`, keeping empty
chunks, as Python `str.split(sep)` does for a one-character separator. -/
def splitChars (p : Char → Bool) : List Char → List (List Char)
  | [] => [[]]
  | c :: cs =>
    match splitChars p cs with
    | [] => [[]]
    | t :: ts => if p c then [] :: t :: ts else (c :: t) :: ts

/-- Python `str.split()` with no argument: split on runs of whitespace and
drop empty tokens. -/
def pySplitWs (s : String) : List String :=
  ((splitChars (fun c => c.isWhitespace) s.toList).map String.mk).filter fun t => t ≠ ""

/-- Lexicographic less-or-equal on character lists by code point, the order
Python uses to compare strings. -/
def charListLe : List Char → List Char → Bool
  | [], _ => true
  | _ :: _, [] => false
  | a :: as, b :: bs => if a = b then charListLe as bs else decide (a < b)

/-- Python string comparison `a <= b`. -/
def pyStrLe (a b : String) : Bool :=
  charListLe a.toList b.toList

/-- Python `list.sort()` on a list of strings (lexicographic order). -/
def pySortStr (l : List String) : List String :=
  l.insertionSort (fun a b => pyStrLe a b = true)

/-- Python `list.sort()` on a list of ints (the ports list). -/
def pySortNat (l : List Nat) : List Nat :=
  l.insertionSort (fun a b => a ≤ b)

/-- Python `a in b` on strings: substring containment. -/
def pySubstr (needle hay : String) : Bool :=
  decide (needle.toList <:+: hay.toList)

/-- Oracles for the external collaborators called by the embedded code.
Each field models one out-of-scope function at its interface. -/
structure Oracles where
  /-- `socket.getnameinfo` inside `reverse_dns_lookup`; `none` models the
  exception branch (the caller then falls back to the original ip). -/
  rdnsLookup : String → Option String
  /-- whether `ipaddress.ip_address` accepts the string (parses as an ip). -/
  isIpLiteral : String → Bool
  /-- `get_vt_results`, the external reputation lookup, keyed by sha256. -/
  vtResults : String → String
  /-- `difflib.get_close_matches(a, l, n=1, cutoff=0.8)`: at most one close
  match out of `l`. -/
  closeMatch : String → List String → Option String
  /-- `difflib.SequenceMatcher(None, a, b, False).get_matching_blocks()`:
  triples (index in a, index in b, block size). -/
  matchingBlocks : String → String → List (Nat × Nat × Nat)
  /-- `get_sha256` of an executable path (already exception-free in the
  source: it returns an all-zeros sentinel on failure). -/
  sha256 : String → String
  /-- `shlex.split`; `none` models the ValueError raised on malformed input. -/
  shlexSplit : String → Option (List String)
  /-- `psutil.Process(pid).as_dict(...)`; `none` models the NoSuchProcess
  exception raised by the constructor when the pid is not alive. -/
  liveProcess : Nat → Option ProcInfo
  /-- `os.path.isfile` for executable paths. -/
  isFile : String → Bool

/-- `reverse_dns_lookup` (line 109): return the lookup result, or the
original ip if the lookup raises. -/
def reverse_dns_lookup (o : Oracles) (ip : String) : String :=
  (o.rdnsLookup ip).getD ip

/-- Python `".".join(ls)`. -/
def joinDots : List String → String
  | [] => ""
  | [x] => x
  | x :: rest => x ++ "." ++ joinDots rest

/-- `reverse_domain_name` (line 117): reverse the dot-separated labels
unless the string parses as an ip literal. -/
def reverse_domain_name (o : Oracles) (dns : String) : String :=
  if o.isIpLiteral dns then dns
  else joinDots ((splitChars (fun c => c = Char.ofNat 46) dns.toList).map String.mk).reverse

/-- The common-pattern fold of `get_common_pattern` (lines 130-133): walk
the matching blocks, padding gaps with stars and copying matched slices of
`a`. -/
def common_pattern_of (a : String) (blocks : List (Nat × Nat × Nat)) : String :=
  blocks.foldl
    (fun cp m =>
      let cp2 := cp ++ String.mk (List.replicate (m.1 - cp.length) (Char.ofNat 42))
      cp2 ++ String.mk ((a.toList.drop m.1).take m.2.2))
    ""

/-- The `while l.count(common_pattern) > 1: l.remove(common_pattern)` loop
of `get_common_pattern` (lines 135-136): repeatedly erase the first copy of
`p` until at most one remains. -/
def dedupeLoop (p : String) (l : List String) : List String :=
  if h : 1 < l.count p then
    dedupeLoop p (l.erase p)
  else l
termination_by l.length
decreasing_by
  have hp : p ∈ l := by
    have : 0 < l.count p := Nat.lt_of_lt_of_le Nat.zero_lt_one (Nat.le_of_lt h)
    exact List.count_pos_iff.mp this
  have h1 := List.length_erase_of_mem hp
  have h2 : l.count p ≤ l.length := List.count_le_length p l
  omega

/-- `get_common_pattern(a, l, cutoff)` (lines 126-138), returning the new
list instead of mutating: if difflib finds a close match `b` in `l`,
replace the first occurrence of `b` by the common pattern and deduplicate
that pattern, otherwise append `a`. -/
def get_common_pattern (o : Oracles) (a : String) (l : List String) : List String :=
  match o.closeMatch a l with
  | some b =>
    let cp := common_pattern_of a (o.matchingBlocks a.toLower b.toLower)
    dedupeLoop cp (l.set (l.indexOf b) cp)
  | none => l ++ [a]

/-- The sentinel string removed from Remote Addresses lists (line 307). -/
def noProcSentinel : String := "No processes found during polling"

/-- The unlog permission test appearing at lines 283, 296 and 310:
`conn["port"] not in unlog and proc["name"] not in unlog`.  The port is a
Python int and the name a Python str, both tested against the same list. -/
def unlogPermits (cfg : Config) (proc : ProcInfo) (conn : ConnInfo) : Bool :=
  decide (PyVal.int conn.port ∉ cfg.remoteAddressUnlog) &&
    decide (PyVal.str proc.name ∉ cfg.remoteAddressUnlog)

/-- Update Latest Entries (lines 260-262 of `update_snitch`). -/
def us_latest (s : SnitchState) (proc : ProcInfo) (ctime : String) : SnitchState :=
  if dictGet s.processes proc.exe = none ∨ dictGet s.names proc.name = none then
    { s with latestEntries :=
        s.latestEntries ++ [ctime ++ " " ++ proc.name ++ " - " ++ proc.exe] }
  else s

/-- Update Names (lines 263-270 of `update_snitch`).  The `toast` calls are
external notification side effects with no bearing on the state. -/
def us_names (s : SnitchState) (proc : ProcInfo) (conn : ConnInfo) : SnitchState :=
  match dictGet s.names proc.name with
  | some exes =>
    if proc.exe ∈ exes then s
    else { s with names := dictSet s.names proc.name (exes ++ [proc.exe]) }
  | none =>
    if conn.ip ≠ "" ∨ conn.port ≠ 0 then
      { s with names := dictSet s.names proc.name [proc.exe] }
    else s

/-- The fresh `Processes` record built at lines 273-284: empty remote
addresses, then the reversed dns appended when the unlog test permits. -/
def newProcessEntry (o : Oracles) (proc : ProcInfo) (conn : ConnInfo)
    (sha256 ctime rdns : String) (cfg : Config) : ProcessEntry :=
  let base : ProcessEntry :=
    { name := proc.name
      cmdlines := [proc.cmdline]
      firstSeen := ctime
      lastSeen := ctime
      daysSeen := 1
      ports := [conn.port]
      remoteAddresses := []
      results := [(sha256, o.vtResults sha256)] }
  if unlogPermits cfg proc conn then
    { base with remoteAddresses := [rdns] }
  else base

/-- The in-place mutation of an existing `Processes` record, lines 286-302
of `update_snitch`, in source order: alternative name, cmdline merge (then
sort), port insert (then sort), remote address insert under the unlog test,
new sha256 result, day increment, last-seen update. -/
def us_entry_update (o : Oracles) (proc : ProcInfo) (conn : ConnInfo)
    (sha256 ctime rdns : String) (cfg : Config) (entry : ProcessEntry) : ProcessEntry :=
  let e1 := if pySubstr proc.name entry.name then entry
    else { entry with name := entry.name ++ " alternative=" ++ proc.name }
  let e2 := if proc.cmdline ∈ e1.cmdlines then e1
    else { e1 with cmdlines := pySortStr (get_common_pattern o proc.cmdline e1.cmdlines) }
  let e3 := if conn.port ∈ e2.ports then e2
    else { e2 with ports := pySortNat (e2.ports ++ [conn.port]) }
  let e4 := if rdns ∈ e3.remoteAddresses then e3
    else if unlogPermits cfg proc conn then
      { e3 with remoteAddresses := e3.remoteAddresses ++ [rdns] }
    else e3
  let e5 := if dictGet e4.results sha256 = none then
      { e4 with results := dictSet e4.results sha256 (o.vtResults sha256) }
    else e4
  let e6 := if (pySplitWs ctime).take 3 ≠ (pySplitWs e5.lastSeen).take 3 then
      { e5 with daysSeen := e5.daysSeen + 1 }
    else e5
  { e6 with lastSeen := ctime }

/-- Update Processes (lines 271-302 of `update_snitch`). -/
def us_processes (o : Oracles) (s : SnitchState) (proc : ProcInfo) (conn : ConnInfo)
    (sha256 ctime rdns : String) : SnitchState :=
  match dictGet s.processes proc.exe with
  | none =>
    { s with processes :=
        dictSet s.processes proc.exe (newProcessEntry o proc conn sha256 ctime rdns s.config) }
  | some _ =>
    { s with processes :=
        dictModify s.processes proc.exe (us_entry_update o proc conn sha256 ctime rdns s.config) }

/-- Update Remote Addresses (lines 303-311 of `update_snitch`): insert the
exe at position 1 of an existing list (then drop the polling sentinel), or
create a new key under the unlog test. -/
def us_remote (s : SnitchState) (proc : ProcInfo) (conn : ConnInfo)
    (ctime rdns : String) : SnitchState :=
  match dictGet s.remoteAddresses rdns with
  | some l =>
    if proc.exe ∈ l then s
    else
      let l2 := pyInsert 1 proc.exe l
      let l3 := if noProcSentinel ∈ l2 then l2.erase noProcSentinel else l2
      { s with remoteAddresses := dictSet s.remoteAddresses rdns l3 }
  | none =>
    if unlogPermits s.config proc conn then
      { s with remoteAddresses :=
          dictSet s.remoteAddresses rdns ["First connection: " ++ ctime, proc.exe] }
    else s

/-- `update_snitch` (lines 256-311): reverse-dns resolution followed by the
four ledger sections in source order. -/
def update_snitch (o : Oracles) (s : SnitchState) (proc : ProcInfo) (conn : ConnInfo)
    (sha256 ctime : String) : SnitchState :=
  let rdns := reverse_domain_name o (reverse_dns_lookup o conn.ip)
  us_remote
    (us_processes o (us_names (us_latest s proc ctime) proc conn) proc conn sha256 ctime rdns)
    proc conn ctime rdns

/-- A raw event drained from the bpf subprocess queue: the pickled dicts
put by `queue_exec_event` / `queue_ipv4_event` / `queue_ipv6_event` /
`queue_other_event`. -/
inductive RawEvent where
  | exec (pid : Nat) (name : String) (cmdline : String)
  | conn (pid : Nat) (ip : String) (port : Nat)
deriving DecidableEq, Repr

/-- An element of `pending_list` in `process_queue`: an exec event with its
`exe` filled in, or a conn event enriched with the pid table entry.  `ip`
and `port` carry the connection data when `isConn` is set. -/
structure QItem where
  isConn : Bool
  proc : ProcInfo
  ip : String
  port : Nat
deriving DecidableEq, Repr

/-- Rendering of an event dict for diagnostic lines, modelling Python
`str(proc)` (the exact dict punctuation is abstracted; the claims only
constrain the prefixes of the diagnostic lines). -/
def reprRawEvent : RawEvent → String
  | RawEvent.exec pid name cmdline =>
    "exec " ++ toString pid ++ " " ++ name ++ " " ++ cmdline
  | RawEvent.conn pid ip port =>
    "conn " ++ toString pid ++ " " ++ ip ++ " " ++ toString port

/-- The pid of a raw event dict. -/
def RawEvent.pid : RawEvent → Nat
  | RawEvent.exec p _ _ => p
  | RawEvent.conn p _ _ => p

/-- Lines 216-218 of `process_queue`: take the first shlex token of the
cmdline as the exe, or the second if the first is literally "exec".  The
error cases model the uncaught ValueError of `shlex.split` and the
IndexError of the subscripts. -/
def shlexExe (o : Oracles) (cmdline : String) : Except String String :=
  match o.shlexSplit cmdline with
  | none => Except.error "ValueError"
  | some [] => Except.error "IndexError"
  | some (t :: rest) =>
    if t = "exec" then
      match rest with
      | [] => Except.error "IndexError"
      | u :: _ => Except.ok u
    else Except.ok t

/-- First pass of `process_queue` (lines 214-232) over the freshly drained
events: register exec events in the pid table (queueing them when
`Only log connections` is false), enrich conn events with known pids, and
defer unknown-pid conn events to `pending_conns` after an unguarded
`psutil.Process` lookup, whose NoSuchProcess exception propagates out as
`Except.error`. -/
def pq_first_pass (o : Oracles) (onlyLog : Bool) (kp : PidTable) :
    List RawEvent → Except String (PidTable × List QItem × List RawEvent)
  | [] => Except.ok (kp, [], [])
  | RawEvent.exec pid name cmdline :: rest => do
    let exe ← shlexExe o cmdline
    let info : ProcInfo := ⟨name, exe, cmdline, pid⟩
    let out ← pq_first_pass o onlyLog (dictSet kp (PyVal.int pid) info) rest
    if onlyLog then pure out
    else pure (out.1, ⟨false, info, "", 0⟩ :: out.2.1, out.2.2)
  | RawEvent.conn pid ip port :: rest =>
    match dictGet kp (PyVal.int pid) with
    | some info => do
      let out ← pq_first_pass o onlyLog kp rest
      pure (out.1, ⟨true, ⟨info.name, info.exe, info.cmdline, pid⟩, ip, port⟩ :: out.2.1, out.2.2)
    | none =>
      match o.liveProcess pid with
      | none => Except.error ("NoSuchProcess " ++ toString pid)
      | some pinfo => do
        let kp2 := if pinfo.exe ≠ "" then dictSet kp (PyVal.int pinfo.pid) pinfo else kp
        let out ← pq_first_pass o onlyLog kp2 rest
        pure (out.1, out.2.1, RawEvent.conn pid ip port :: out.2.2)

/-- Second pass of `process_queue` (lines 233-240) over last round's
`missed_conns`: enrich the ones whose pid is now known, report the others
as error lines. -/
def pq_missed_pass (kp : PidTable) (ctime : String) :
    List RawEvent → List QItem × List String
  | [] => ([], [])
  | e :: rest =>
    let out := pq_missed_pass kp ctime rest
    match dictGet kp (PyVal.int e.pid) with
    | some info =>
      let item : QItem :=
        match e with
        | RawEvent.exec _ _ _ => ⟨false, ⟨info.name, info.exe, info.cmdline, e.pid⟩, "", 0⟩
        | RawEvent.conn _ ip port => ⟨true, ⟨info.name, info.exe, info.cmdline, e.pid⟩, ip, port⟩
      (item :: out.1, out.2)
    | none =>
      (out.1, (ctime ++ " no known process for conn: " ++ reprRawEvent e) :: out.2)

/-- Third pass of `process_queue` (lines 241-252): merge each queued item
into the ledger with the exec-only conn tuple for exec items.  The
embedded `update_snitch` is total, so the per-item try/except of the
source never fires in the model. -/
def pq_third_pass (o : Oracles) (ctime : String) (s : SnitchState) :
    List QItem → SnitchState
  | [] => s
  | it :: rest =>
    let conn : ConnInfo := if it.isConn then ⟨it.ip, it.port⟩ else ⟨"", 0⟩
    pq_third_pass o ctime (update_snitch o s it.proc conn (o.sha256 it.proc.exe) ctime) rest

/-- `process_queue` (lines 209-253): drain one batch.  Returns the updated
snitch, the updated pid table and the new `pending_conns`, or the
exception escaping the function. -/
def process_queue (o : Oracles) (s : SnitchState) (kp : PidTable)
    (missed_conns new_processes : List RawEvent) (ctime : String) :
    Except String (SnitchState × PidTable × List RawEvent) := do
  let (kp2, pl1, pc) ← pq_first_pass o s.config.onlyLogConnections kp new_processes
  let (pl2, errs) := pq_missed_pass kp2 ctime missed_conns
  let s2 := { s with errors := s.errors ++ errs }
  pure (pq_third_pass o ctime s2 (pl1 ++ pl2), kp2, pc)

/-- The process-enumeration loop of `initial_poll` (lines 174-179): for
each running process whose executable is an existing file, record it in
`current_processes` keyed by exe and write it into `known_pids` — under
the literal string key "pid" as the source does at line 179.  The
remainder of `initial_poll` iterates over connections and never touches
`known_pids`. -/
def initial_poll_pids (isFile : String → Bool) (procs : List ProcInfo)
    (cur : List (String × ProcInfo)) (kp : PidTable) :
    List (String × ProcInfo) × PidTable :=
  match procs with
  | [] => (cur, kp)
  | p :: rest =>
    if isFile p.exe then
      initial_poll_pids isFile rest (dictSet cur p.exe p) (dictSet kp (PyVal.str "pid") p)
    else
      initial_poll_pids isFile rest cur kp

/-- One iteration of the `snitch_monitor` supervision loop (lines 435-453).
Inputs sample the observable world at the two points the source reads it:
`subAlive` is the producer liveness at the top of the loop (line 436),
`vms` its virtual memory size, `elapsed` the seconds since the last start
(the value of `time.time() - time_last_start`), `term` whether a truthy
token arrived on the terminate queue within the 10 s block, `parentAlive`
and `childAliveAtCheck` the liveness samples of the timeout branch (line
452), where `childAliveAtCheck` refers to the freshly spawned producer
when a restart happened this iteration.  The result is (restarted,
exited): whether a fresh producer was spawned, and whether the loop broke
out (followed by child termination and return). -/
def snitch_monitor_step (subAlive : Bool) (vms : Nat) (elapsed : ℚ)
    (term : Bool) (parentAlive : Bool) (childAliveAtCheck : Bool) : Bool × Bool :=
  let restarted := if subAlive then decide (vms > 512000000) else decide (elapsed > 300)
  let exited := term || (!parentAlive || !childAliveAtCheck)
  (restarted, exited)

/-- The name/exe consistency condition of one `Processes` pair: its stored
canonical name is a key of `Names` and the exe is in that key's list. -/
def entryOk (s : SnitchState) (pe : String × ProcessEntry) : Prop :=
  match dictGet s.names pe.2.name with
  | some l => pe.1 ∈ l
  | none => False

instance (s : SnitchState) (pe : String × ProcessEntry) : Decidable (entryOk s pe) :=
  match h : dictGet s.names pe.2.name with
  | some l => by unfold entryOk; rw [h]; exact inferInstance
  | none => by unfold entryOk; rw [h]; exact isFalse id

/-- The ledger invariant of claim C5: every `Processes` entry is registered
under its stored name in `Names`. -/
def namesInv (s : SnitchState) : Prop :=
  ∀ pe ∈ s.processes, entryOk s pe

instance (s : SnitchState) : Decidable (namesInv s) :=
  List.decidableBAll _ _

/-- A concrete oracle assembly for evaluating the embedded code on closed
inputs: no dns resolution, an ip-literal test recognising the sample
address, the no-api-key VirusTotal placeholder, no close cmdline matches,
whitespace shlex splitting, no live processes, and an all-files-exist
filesystem. -/
def testOracle : Oracles where
  rdnsLookup := fun _ => none
  isIpLiteral := fun s => decide (s = "1.2.3.4")
  vtResults := fun _ => "File not analyzed (no api key)"
  closeMatch := fun _ _ => none
  matchingBlocks := fun _ _ => []
  sha256 := fun _ => "00sha00"
  shlexSplit := fun s => some (pySplitWs s)
  liveProcess := fun _ => none
  isFile := fun _ => true

/-- Whether a Python value is a string. -/
def PyVal.isStr : PyVal → Bool
  | PyVal.int _ => false
  | PyVal.str _ => true

/-- Whether the Processes record stored under `exe` lists `rdns` among its
remote addresses. -/
def entryHasRdns (s : SnitchState) (exe rdns : String) : Bool :=
  match dictGet s.processes exe with
  | some e => decide (rdns ∈ e.remoteAddresses)
  | none => false

/-- A snitch state as freshly initialised from the template of `read`
(line 50): default config, all sections empty. -/
def emptySnitch : SnitchState where
  config := { onlyLogConnections := true, remoteAddressUnlog := [PyVal.str "firefox"] }
  errors := []
  latestEntries := []
  names := []
  processes := []
  remoteAddresses := []

/-- The empty-template state with the unlog list set to the port string
"80", for exercising the unlog filter. -/
def c2UnlogState : SnitchState :=
  { emptySnitch with
    config := { onlyLogConnections := true, remoteAddressUnlog := [PyVal.str "80"] } }

/-- A consistent one-process ledger entry: name n1 for exe e1. -/
def wNamesEntry : ProcessEntry :=
  ⟨"n1", ["c"], "t0", "t0", 1, [80], [], [("h", "r")]⟩

/-- A state satisfying the names invariant, used to instantiate the
invariant-preservation theorem. -/
def wNamesState : SnitchState :=
  { emptySnitch with
    names := [("n1", ["e1"])]
    processes := [("e1", wNamesEntry)] }

/-! Association-list (Python dict) lemmas. -/

theorem dictGet_dictSet_self {K V : Type} [DecidableEq K] (d : List (K × V)) (k : K) (v : V) :
    dictGet (dictSet d k v) k = some v := by
  induction d with
  | nil => simp [dictGet, dictSet]
  | cons p rest ih =>
    obtain ⟨k2, v2⟩ := p
    by_cases h : k2 = k
    · subst h
      simp [dictGet, dictSet]
    · simp [dictGet, dictSet, h, ih]

theorem dictGet_dictSet_ne {K V : Type} [DecidableEq K] (d : List (K × V)) (k k2 : K) (v : V)
    (h : k ≠ k2) : dictGet (dictSet d k v) k2 = dictGet d k2 := by
  induction d with
  | nil => simp [dictGet, dictSet, h]
  | cons p rest ih =>
    obtain ⟨k3, v3⟩ := p
    by_cases h3 : k3 = k
    · subst h3
      simp [dictGet, dictSet, h]
    · simp only [dictSet, if_neg h3, dictGet]
      by_cases h4 : k3 = k2 <;> simp [h4, ih]

theorem dictSet_of_get_none {K V : Type} [DecidableEq K] (d : List (K × V)) (k : K) (v : V)
    (h : dictGet d k = none) : dictSet d k v = d ++ [(k, v)] := by
  induction d with
  | nil => simp [dictSet]
  | cons p rest ih =>
    obtain ⟨k2, v2⟩ := p
    by_cases h2 : k2 = k
    · subst h2
      simp [dictGet] at h
    · simp only [dictGet, if_neg h2] at h
      simp [dictSet, h2, ih h]

theorem dictGet_dictModify_self {K V : Type} [DecidableEq K] (d : List (K × V)) (k : K)
    (f : V → V) : dictGet (dictModify d k f) k = (dictGet d k).map f := by
  induction d with
  | nil => simp [dictGet, dictModify]
  | cons p rest ih =>
    obtain ⟨k2, v2⟩ := p
    simp only [dictModify, List.map_cons] at ih ⊢
    by_cases h : k2 = k
    · subst h
      rw [if_pos rfl]
      simp [dictGet]
    · rw [if_neg h]
      simp only [dictGet, if_neg h]
      exact ih

theorem dictGet_dictModify_ne {K V : Type} [DecidableEq K] (d : List (K × V)) (k k2 : K)
    (f : V → V) (h : k ≠ k2) : dictGet (dictModify d k f) k2 = dictGet d k2 := by
  induction d with
  | nil => simp [dictGet, dictModify]
  | cons p rest ih =>
    obtain ⟨k3, v3⟩ := p
    simp only [dictModify, List.map_cons] at ih ⊢
    by_cases h3 : k3 = k
    · subst h3
      rw [if_pos rfl]
      simp only [dictGet, if_neg h]
      exact ih
    · rw [if_neg h3]
      by_cases h4 : k3 = k2
      · subst h4
        simp [dictGet]
      · simp only [dictGet, if_neg h4]
        exact ih

theorem mem_dictSet {K V : Type} [DecidableEq K] {d : List (K × V)} {k : K} {v : V}
    {p : K × V} : p ∈ dictSet d k v → p = (k, v) ∨ p ∈ d := by
  induction d with
  | nil =>
    intro h
    simpa [dictSet] using h
  | cons q rest ih =>
    intro h
    obtain ⟨k2, v2⟩ := q
    by_cases h2 : k2 = k
    · subst h2
      simp only [dictSet, if_true, eq_self_iff_true, List.mem_cons] at h
      rcases h with h | h
      · exact Or.inl h
      · exact Or.inr (List.mem_cons_of_mem _ h)
    · simp only [dictSet, if_neg h2, List.mem_cons] at h
      rcases h with h3 | h3
      · exact Or.inr (by simp [h3])
      · rcases ih h3 with h4 | h4
        · exact Or.inl h4
        · exact Or.inr (List.mem_cons_of_mem _ h4)

theorem mem_dictModify {K V : Type} [DecidableEq K] {d : List (K × V)} {k : K} {f : V → V}
    {p : K × V} (h : p ∈ dictModify d k f) :
    (∃ q ∈ d, q.1 ≠ k ∧ p = q) ∨ (∃ w, (k, w) ∈ d ∧ p = (k, f w)) := by
  unfold dictModify at h
  rcases List.mem_map.mp h with ⟨q, hq, hpq⟩
  obtain ⟨a, b⟩ := q
  by_cases h2 : a = k
  · subst h2
    right
    refine ⟨b, hq, ?_⟩
    rw [← hpq, if_pos rfl]
  · left
    refine ⟨(a, b), hq, h2, ?_⟩
    rw [← hpq, if_neg h2]

theorem dictGet_mem {K V : Type} [DecidableEq K] {d : List (K × V)} {k : K} {v : V} :
    dictGet d k = some v → (k, v) ∈ d := by
  induction d with
  | nil =>
    intro h
    simp [dictGet] at h
  | cons p rest ih =>
    intro h
    obtain ⟨k2, v2⟩ := p
    by_cases h2 : k2 = k
    · subst h2
      simp only [dictGet, if_true, eq_self_iff_true, Option.some.injEq] at h
      subst h
      exact List.mem_cons_self ..
    · simp only [dictGet, if_neg h2] at h
      exact List.mem_cons_of_mem _ (ih h)

theorem dictGet_of_mem_nodupKeys {K V : Type} [DecidableEq K] {d : List (K × V)} {k : K}
    {v : V} (hnd : (d.map Prod.fst).Nodup) (h : (k, v) ∈ d) : dictGet d k = some v := by
  induction d with
  | nil => simp at h
  | cons p rest ih =>
    obtain ⟨k2, v2⟩ := p
    simp only [List.map_cons, List.nodup_cons] at hnd
    rcases List.mem_cons.mp h with h2 | h2
    · obtain ⟨rfl, rfl⟩ := Prod.mk.inj h2.symm
      simp [dictGet]
    · have hk : k2 ≠ k := by
        rintro rfl
        exact hnd.1 (List.mem_map.mpr ⟨(k2, v), h2, rfl⟩)
      simp only [dictGet, if_neg hk]
      exact ih hnd.2 h2

/-! Field-preservation lemmas for the four sections of `update_snitch`:
each section only writes its own part of the snitch dictionary. -/

theorem us_latest_names (s : SnitchState) (p : ProcInfo) (t : String) :
    (us_latest s p t).names = s.names := by
  unfold us_latest
  split <;> rfl

theorem us_latest_processes (s : SnitchState) (p : ProcInfo) (t : String) :
    (us_latest s p t).processes = s.processes := by
  unfold us_latest
  split <;> rfl

theorem us_latest_remote (s : SnitchState) (p : ProcInfo) (t : String) :
    (us_latest s p t).remoteAddresses = s.remoteAddresses := by
  unfold us_latest
  split <;> rfl

theorem us_latest_config (s : SnitchState) (p : ProcInfo) (t : String) :
    (us_latest s p t).config = s.config := by
  unfold us_latest
  split <;> rfl

theorem us_latest_errors (s : SnitchState) (p : ProcInfo) (t : String) :
    (us_latest s p t).errors = s.errors := by
  unfold us_latest
  split <;> rfl

theorem us_latest_latestEntries (s : SnitchState) (p : ProcInfo) (t : String) :
    (us_latest s p t).latestEntries =
      if dictGet s.processes p.exe = none ∨ dictGet s.names p.name = none then
        s.latestEntries ++ [t ++ " " ++ p.name ++ " - " ++ p.exe]
      else s.latestEntries := by
  unfold us_latest
  split <;> simp_all

theorem us_names_latestEntries (s : SnitchState) (p : ProcInfo) (c : ConnInfo) :
    (us_names s p c).latestEntries = s.latestEntries := by
  unfold us_names
  cases dictGet s.names p.name <;> dsimp only <;> split <;> rfl

theorem us_names_processes (s : SnitchState) (p : ProcInfo) (c : ConnInfo) :
    (us_names s p c).processes = s.processes := by
  unfold us_names
  cases dictGet s.names p.name <;> dsimp only <;> split <;> rfl

theorem us_names_remote (s : SnitchState) (p : ProcInfo) (c : ConnInfo) :
    (us_names s p c).remoteAddresses = s.remoteAddresses := by
  unfold us_names
  cases dictGet s.names p.name <;> dsimp only <;> split <;> rfl

theorem us_names_config (s : SnitchState) (p : ProcInfo) (c : ConnInfo) :
    (us_names s p c).config = s.config := by
  unfold us_names
  cases dictGet s.names p.name <;> dsimp only <;> split <;> rfl

theorem us_names_errors (s : SnitchState) (p : ProcInfo) (c : ConnInfo) :
    (us_names s p c).errors = s.errors := by
  unfold us_names
  cases dictGet s.names p.name <;> dsimp only <;> split <;> rfl

theorem us_processes_names (o : Oracles) (s : SnitchState) (p : ProcInfo) (c : ConnInfo)
    (sha t rdns : String) : (us_processes o s p c sha t rdns).names = s.names := by
  unfold us_processes
  cases dictGet s.processes p.exe <;> rfl

theorem us_processes_latestEntries (o : Oracles) (s : SnitchState) (p : ProcInfo)
    (c : ConnInfo) (sha t rdns : String) :
    (us_processes o s p c sha t rdns).latestEntries = s.latestEntries := by
  unfold us_processes
  cases dictGet s.processes p.exe <;> rfl

theorem us_processes_remote (o : Oracles) (s : SnitchState) (p : ProcInfo) (c : ConnInfo)
    (sha t rdns : String) :
    (us_processes o s p c sha t rdns).remoteAddresses = s.remoteAddresses := by
  unfold us_processes
  cases dictGet s.processes p.exe <;> rfl

theorem us_processes_config (o : Oracles) (s : SnitchState) (p : ProcInfo) (c : ConnInfo)
    (sha t rdns : String) : (us_processes o s p c sha t rdns).config = s.config := by
  unfold us_processes
  cases dictGet s.processes p.exe <;> rfl

theorem us_processes_errors (o : Oracles) (s : SnitchState) (p : ProcInfo) (c : ConnInfo)
    (sha t rdns : String) : (us_processes o s p c sha t rdns).errors = s.errors := by
  unfold us_processes
  cases dictGet s.processes p.exe <;> rfl

theorem us_remote_names (s : SnitchState) (p : ProcInfo) (c : ConnInfo) (t rdns : String) :
    (us_remote s p c t rdns).names = s.names := by
  unfold us_remote
  cases dictGet s.remoteAddresses rdns <;> dsimp only <;> split <;> rfl

theorem us_remote_processes (s : SnitchState) (p : ProcInfo) (c : ConnInfo)
    (t rdns : String) : (us_remote s p c t rdns).processes = s.processes := by
  unfold us_remote
  cases dictGet s.remoteAddresses rdns <;> dsimp only <;> split <;> rfl

theorem us_remote_latestEntries (s : SnitchState) (p : ProcInfo) (c : ConnInfo)
    (t rdns : String) : (us_remote s p c t rdns).latestEntries = s.latestEntries := by
  unfold us_remote
  cases dictGet s.remoteAddresses rdns <;> dsimp only <;> split <;> rfl

theorem us_remote_config (s : SnitchState) (p : ProcInfo) (c : ConnInfo) (t rdns : String) :
    (us_remote s p c t rdns).config = s.config := by
  unfold us_remote
  cases dictGet s.remoteAddresses rdns <;> dsimp only <;> split <;> rfl

theorem us_remote_errors (s : SnitchState) (p : ProcInfo) (c : ConnInfo) (t rdns : String) :
    (us_remote s p c t rdns).errors = s.errors := by
  unfold us_remote
  cases dictGet s.remoteAddresses rdns <;> dsimp only <;> split <;> rfl

/-! Field characterizations of the in-place record mutation of lines
286-302: each field is written by exactly one of the sequenced steps. -/

theorem us_entry_update_lastSeen (o : Oracles) (p : ProcInfo) (c : ConnInfo)
    (sha t rdns : String) (cfg : Config) (e : ProcessEntry) :
    (us_entry_update o p c sha t rdns cfg e).lastSeen = t := rfl

theorem us_entry_update_daysSeen (o : Oracles) (p : ProcInfo) (c : ConnInfo)
    (sha t rdns : String) (cfg : Config) (e : ProcessEntry) :
    (us_entry_update o p c sha t rdns cfg e).daysSeen =
      e.daysSeen + (if (pySplitWs t).take 3 ≠ (pySplitWs e.lastSeen).take 3 then 1 else 0) := by
  simp only [us_entry_update, apply_ite ProcessEntry.daysSeen, apply_ite ProcessEntry.lastSeen,
    apply_ite ProcessEntry.cmdlines, apply_ite ProcessEntry.ports,
    apply_ite ProcessEntry.remoteAddresses, apply_ite ProcessEntry.results,
    apply_ite ProcessEntry.name, ite_self]
  split <;> simp

theorem us_entry_update_ports (o : Oracles) (p : ProcInfo) (c : ConnInfo)
    (sha t rdns : String) (cfg : Config) (e : ProcessEntry) :
    (us_entry_update o p c sha t rdns cfg e).ports =
      if c.port ∈ e.ports then e.ports else pySortNat (e.ports ++ [c.port]) := by
  simp only [us_entry_update, apply_ite ProcessEntry.daysSeen, apply_ite ProcessEntry.lastSeen,
    apply_ite ProcessEntry.cmdlines, apply_ite ProcessEntry.ports,
    apply_ite ProcessEntry.remoteAddresses, apply_ite ProcessEntry.results,
    apply_ite ProcessEntry.name, ite_self]

theorem us_entry_update_name (o : Oracles) (p : ProcInfo) (c : ConnInfo)
    (sha t rdns : String) (cfg : Config) (e : ProcessEntry) :
    (us_entry_update o p c sha t rdns cfg e).name =
      if pySubstr p.name e.name then e.name else e.name ++ " alternative=" ++ p.name := by
  simp only [us_entry_update, apply_ite ProcessEntry.daysSeen, apply_ite ProcessEntry.lastSeen,
    apply_ite ProcessEntry.cmdlines, apply_ite ProcessEntry.ports,
    apply_ite ProcessEntry.remoteAddresses, apply_ite ProcessEntry.results,
    apply_ite ProcessEntry.name, ite_self]

theorem us_entry_update_cmdlines (o : Oracles) (p : ProcInfo) (c : ConnInfo)
    (sha t rdns : String) (cfg : Config) (e : ProcessEntry) :
    (us_entry_update o p c sha t rdns cfg e).cmdlines =
      if p.cmdline ∈ e.cmdlines then e.cmdlines
      else pySortStr (get_common_pattern o p.cmdline e.cmdlines) := by
  simp only [us_entry_update, apply_ite ProcessEntry.daysSeen, apply_ite ProcessEntry.lastSeen,
    apply_ite ProcessEntry.cmdlines, apply_ite ProcessEntry.ports,
    apply_ite ProcessEntry.remoteAddresses, apply_ite ProcessEntry.results,
    apply_ite ProcessEntry.name, ite_self]

theorem us_entry_update_remoteAddresses (o : Oracles) (p : ProcInfo) (c : ConnInfo)
    (sha t rdns : String) (cfg : Config) (e : ProcessEntry) :
    (us_entry_update o p c sha t rdns cfg e).remoteAddresses =
      if rdns ∈ e.remoteAddresses then e.remoteAddresses
      else if unlogPermits cfg p c then e.remoteAddresses ++ [rdns]
      else e.remoteAddresses := by
  simp only [us_entry_update, apply_ite ProcessEntry.daysSeen, apply_ite ProcessEntry.lastSeen,
    apply_ite ProcessEntry.cmdlines, apply_ite ProcessEntry.ports,
    apply_ite ProcessEntry.remoteAddresses, apply_ite ProcessEntry.results,
    apply_ite ProcessEntry.name, ite_self]

/-! Lookup characterizations for the Processes section. -/

theorem us_processes_get_none (o : Oracles) (s : SnitchState) (p : ProcInfo) (c : ConnInfo)
    (sha t rdns : String) (h : dictGet s.processes p.exe = none) :
    dictGet (us_processes o s p c sha t rdns).processes p.exe =
      some (newProcessEntry o p c sha t rdns s.config) := by
  unfold us_processes
  rw [h]
  exact dictGet_dictSet_self ..

theorem us_processes_get_some (o : Oracles) (s : SnitchState) (p : ProcInfo) (c : ConnInfo)
    (sha t rdns : String) (e : ProcessEntry) (h : dictGet s.processes p.exe = some e) :
    dictGet (us_processes o s p c sha t rdns).processes p.exe =
      some (us_entry_update o p c sha t rdns s.config e) := by
  unfold us_processes
  rw [h]
  dsimp only
  rw [dictGet_dictModify_self, h]
  rfl

theorem us_processes_get_ne (o : Oracles) (s : SnitchState) (p : ProcInfo) (c : ConnInfo)
    (sha t rdns : String) (k : String) (hk : p.exe ≠ k) :
    dictGet (us_processes o s p c sha t rdns).processes k = dictGet s.processes k := by
  unfold us_processes
  cases h : dictGet s.processes p.exe <;> dsimp only
  · exact dictGet_dictSet_ne _ _ _ _ hk
  · exact dictGet_dictModify_ne _ _ _ _ hk

theorem newProcessEntry_ports (o : Oracles) (p : ProcInfo) (c : ConnInfo)
    (sha t rdns : String) (cfg : Config) :
    (newProcessEntry o p c sha t rdns cfg).ports = [c.port] := by
  unfold newProcessEntry
  split <;> rfl

theorem newProcessEntry_name (o : Oracles) (p : ProcInfo) (c : ConnInfo)
    (sha t rdns : String) (cfg : Config) :
    (newProcessEntry o p c sha t rdns cfg).name = p.name := by
  unfold newProcessEntry
  split <;> rfl

theorem newProcessEntry_lastSeen (o : Oracles) (p : ProcInfo) (c : ConnInfo)
    (sha t rdns : String) (cfg : Config) :
    (newProcessEntry o p c sha t rdns cfg).lastSeen = t := by
  unfold newProcessEntry
  split <;> rfl

theorem newProcessEntry_daysSeen (o : Oracles) (p : ProcInfo) (c : ConnInfo)
    (sha t rdns : String) (cfg : Config) :
    (newProcessEntry o p c sha t rdns cfg).daysSeen = 1 := by
  unfold newProcessEntry
  split <;> rfl

theorem newProcessEntry_remoteAddresses (o : Oracles) (p : ProcInfo) (c : ConnInfo)
    (sha t rdns : String) (cfg : Config) :
    (newProcessEntry o p c sha t rdns cfg).remoteAddresses =
      if unlogPermits cfg p c then [rdns] else [] := by
  unfold newProcessEntry
  split <;> rfl

/-- Claim C6: for every call to `update_snitch`, exactly one line is
appended to Latest Entries iff, at call entry, the exe is not a key of
Processes or the name is not a key of Names; otherwise Latest Entries is
unchanged. -/
theorem update_snitch_latest_entries_trigger (o : Oracles) (s : SnitchState)
    (proc : ProcInfo) (conn : ConnInfo) (sha ctime : String) :
    (update_snitch o s proc conn sha ctime).latestEntries =
      if dictGet s.processes proc.exe = none ∨ dictGet s.names proc.name = none then
        s.latestEntries ++ [ctime ++ " " ++ proc.name ++ " - " ++ proc.exe]
      else s.latestEntries := by
  unfold update_snitch
  rw [us_remote_latestEntries, us_processes_latestEntries, us_names_latestEntries,
    us_latest_latestEntries]

/-- Claim C3: `initial_poll` is claimed to key the pid table by each live
process's pid; the source (line 179) instead writes every descriptor under
the literal string key "pid".  At the failing input (one live process with
pid 5 and an existing exe), the pid table maps the string "pid" to the
descriptor and has no entry for pid 5. -/
theorem initial_poll_pid_table_bug :
    dictGet (initial_poll_pids (fun _ => true)
        [⟨"bash", "/bin/bash", "bash", 5⟩] [] []).2 (PyVal.int 5) = none ∧
      dictGet (initial_poll_pids (fun _ => true)
        [⟨"bash", "/bin/bash", "bash", 5⟩] [] []).2 (PyVal.str "pid") =
        some ⟨"bash", "/bin/bash", "bash", 5⟩ := by
  decide

/-- Claim C1: a conn event whose pid is unknown at arrival is claimed to be
queued once and, in no case, to raise an uncaught exception out of
`process_queue`.  The source (line 229) calls `psutil.Process(pid)`
unguarded: at the failing input (one conn event for pid 999, empty pid
table, no live process 999) the NoSuchProcess exception escapes
`process_queue` instead of the event being deferred, contradicting the
spec's no-crash policy and its scenario S3. -/
theorem process_queue_unknown_pid_crash :
    process_queue testOracle emptySnitch [] [] [RawEvent.conn 999 "1.2.3.4" 80] "t1"
      = Except.error "NoSuchProcess 999" := by
  rfl

/-- Claim C4 counterexample: with the producer dead and exactly 300 seconds
elapsed since its last start (satisfying "at least 300 seconds"), no
terminate token and the parent alive, the supervisor iteration does not
restart and instead breaks out of the loop (the dead child makes the
timeout branch exit), so the claim as stated fails at the boundary. -/
theorem snitch_monitor_exact_300_exits :
    snitch_monitor_step false 0 300 false true false = (false, true) := by
  decide

/-- Claim C4 (amended): if the producer has exited, strictly more than 300
seconds have elapsed since its last start, no terminate token was received,
the parent is alive and the freshly spawned producer is alive at the
subsequent liveness check, then the supervisor iteration spawns a fresh
producer and does not exit. -/
theorem snitch_monitor_restart_after_cooldown (vms : Nat) (elapsed : ℚ)
    (freshAlive : Bool) (h : 300 < elapsed) (hfresh : freshAlive = true) :
    snitch_monitor_step false vms elapsed false true freshAlive = (true, false) := by
  subst hfresh
  simp [snitch_monitor_step, h]

/-- Witness for the amended C4 theorem at vms 0 and elapsed 301 seconds. -/
theorem snitch_monitor_restart_after_cooldown_witness :
    snitch_monitor_step false 0 301 false true true = (true, false) :=
  snitch_monitor_restart_after_cooldown 0 301 true (by norm_num) rfl

/-- The Processes record looked up under the event's exe after a merge:
newly created from the event when the exe was absent, otherwise the
in-place mutation of the previous record. -/
theorem update_snitch_get_exe (o : Oracles) (s : SnitchState) (proc : ProcInfo)
    (conn : ConnInfo) (sha ctime : String) :
    dictGet (update_snitch o s proc conn sha ctime).processes proc.exe =
      some ((dictGet s.processes proc.exe).elim
        (newProcessEntry o proc conn sha ctime
          (reverse_domain_name o (reverse_dns_lookup o conn.ip)) s.config)
        (us_entry_update o proc conn sha ctime
          (reverse_domain_name o (reverse_dns_lookup o conn.ip)) s.config)) := by
  unfold update_snitch
  rw [us_remote_processes]
  have hc : (us_names (us_latest s proc ctime) proc conn).config = s.config := by
    rw [us_names_config, us_latest_config]
  cases h : dictGet s.processes proc.exe with
  | none =>
    have h2 : dictGet (us_names (us_latest s proc ctime) proc conn).processes proc.exe
        = none := by
      rw [us_names_processes, us_latest_processes]
      exact h
    rw [us_processes_get_none _ _ _ _ _ _ _ h2, hc]
    rfl
  | some e =>
    have h2 : dictGet (us_names (us_latest s proc ctime) proc conn).processes proc.exe
        = some e := by
      rw [us_names_processes, us_latest_processes]
      exact h
    rw [us_processes_get_some _ _ _ _ _ _ _ _ h2, hc]
    rfl

/-- Claim C10: an exec-only merge (conn ip empty, port zero) inserts port 0
exactly like a real port: a freshly created record has ports [0], and an
existing record gains 0 into its sorted ports list when absent (unchanged
when present). -/
theorem update_snitch_exec_only_port_zero (o : Oracles) (s : SnitchState)
    (proc : ProcInfo) (sha ctime : String) :
    (dictGet s.processes proc.exe = none →
      ∃ e, dictGet (update_snitch o s proc ⟨"", 0⟩ sha ctime).processes proc.exe = some e ∧
        e.ports = [0]) ∧
    (∀ e0, dictGet s.processes proc.exe = some e0 →
      ∃ e, dictGet (update_snitch o s proc ⟨"", 0⟩ sha ctime).processes proc.exe = some e ∧
        e.ports = if 0 ∈ e0.ports then e0.ports else pySortNat (e0.ports ++ [0])) := by
  constructor
  · intro h
    refine ⟨_, update_snitch_get_exe o s proc ⟨"", 0⟩ sha ctime, ?_⟩
    rw [h]
    exact newProcessEntry_ports ..
  · intro e0 h
    refine ⟨_, update_snitch_get_exe o s proc ⟨"", 0⟩ sha ctime, ?_⟩
    rw [h]
    exact us_entry_update_ports ..

/-- Witness for C10: a fresh record created by an exec-only merge has ports
[0], and an existing record with ports [80] gains the 0. -/
theorem update_snitch_exec_only_port_zero_witness :
    (∃ e, dictGet (update_snitch testOracle emptySnitch
        ⟨"x", "/bin/x", "x", 1⟩ ⟨"", 0⟩ "h1" "t1").processes "/bin/x" = some e ∧
      e.ports = [0]) ∧
    (∃ e, dictGet (update_snitch testOracle
        { emptySnitch with processes := [("/bin/x",
          ⟨"x", ["x"], "t0", "t0", 1, [80], [], [("h1", "r")]⟩)] }
        ⟨"x", "/bin/x", "x", 1⟩ ⟨"", 0⟩ "h1" "t1").processes "/bin/x" = some e ∧
      e.ports = if 0 ∈ [80] then [80] else pySortNat ([80] ++ [0])) := by
  constructor
  · exact (update_snitch_exec_only_port_zero testOracle emptySnitch
      ⟨"x", "/bin/x", "x", 1⟩ "h1" "t1").1 (by decide)
  · exact (update_snitch_exec_only_port_zero testOracle
      { emptySnitch with processes := [("/bin/x",
        ⟨"x", ["x"], "t0", "t0", 1, [80], [], [("h1", "r")]⟩)] }
      ⟨"x", "/bin/x", "x", 1⟩ "h1" "t1").2
      ⟨"x", ["x"], "t0", "t0", 1, [80], [], [("h1", "r")]⟩ (by decide)

/-- The Remote Addresses section on an existing key without the exe:
insertion at position 1, then sentinel removal. -/
theorem us_remote_get_existing (s : SnitchState) (p : ProcInfo) (c : ConnInfo)
    (t rdns : String) (l : List String) (hget : dictGet s.remoteAddresses rdns = some l)
    (hmem : p.exe ∉ l) :
    dictGet (us_remote s p c t rdns).remoteAddresses rdns =
      some (if noProcSentinel ∈ pyInsert 1 p.exe l then
        (pyInsert 1 p.exe l).erase noProcSentinel
      else pyInsert 1 p.exe l) := by
  unfold us_remote
  rw [hget]
  dsimp only
  rw [if_neg hmem]
  split <;> rw [dictGet_dictSet_self]

/-- Claim C9: when the reversed-DNS key already exists in Remote Addresses
and the exe is not yet in its list, the exe is inserted at position 1 of
that list (followed by removal of the polling sentinel if present),
independently of the unlog configuration: the theorem quantifies over every
state, including those whose unlog list contains the process name or the
port. -/
theorem update_snitch_existing_remote_key (o : Oracles) (s : SnitchState)
    (proc : ProcInfo) (conn : ConnInfo) (sha ctime rdns : String) (l : List String)
    (hrdns : rdns = reverse_domain_name o (reverse_dns_lookup o conn.ip))
    (hget : dictGet s.remoteAddresses rdns = some l)
    (hmem : proc.exe ∉ l) :
    dictGet (update_snitch o s proc conn sha ctime).remoteAddresses rdns =
      some (if noProcSentinel ∈ pyInsert 1 proc.exe l then
        (pyInsert 1 proc.exe l).erase noProcSentinel
      else pyInsert 1 proc.exe l) := by
  subst hrdns
  have hget2 : dictGet (us_processes o (us_names (us_latest s proc ctime) proc conn) proc
      conn sha ctime (reverse_domain_name o (reverse_dns_lookup o conn.ip))).remoteAddresses
      (reverse_domain_name o (reverse_dns_lookup o conn.ip)) = some l := by
    rw [us_processes_remote, us_names_remote, us_latest_remote]
    exact hget
  exact us_remote_get_existing _ _ _ _ _ _ hget2 hmem

/-- Witness for C9: the unlog list contains the process name "firefox",
yet the exe is still inserted into the existing Remote Addresses list. -/
theorem update_snitch_existing_remote_key_witness :
    dictGet (update_snitch testOracle
      { emptySnitch with remoteAddresses := [("1.2.3.4", ["First connection: t0"])] }
      ⟨"firefox", "/bin/ff", "ff", 1⟩ ⟨"1.2.3.4", 80⟩ "h1" "t1").remoteAddresses "1.2.3.4" =
      some (if noProcSentinel ∈ pyInsert 1 "/bin/ff" ["First connection: t0"] then
        (pyInsert 1 "/bin/ff" ["First connection: t0"]).erase noProcSentinel
      else pyInsert 1 "/bin/ff" ["First connection: t0"]) :=
  update_snitch_existing_remote_key testOracle
    { emptySnitch with remoteAddresses := [("1.2.3.4", ["First connection: t0"])] }
    ⟨"firefox", "/bin/ff", "ff", 1⟩ ⟨"1.2.3.4", 80⟩ "h1" "t1" "1.2.3.4"
    ["First connection: t0"] (by decide) (by decide) (by decide)

/-- Specialization of `update_snitch_get_exe` to an absent exe. -/
theorem update_snitch_get_exe_none (o : Oracles) (s : SnitchState) (proc : ProcInfo)
    (conn : ConnInfo) (sha ctime : String) (h : dictGet s.processes proc.exe = none) :
    dictGet (update_snitch o s proc conn sha ctime).processes proc.exe =
      some (newProcessEntry o proc conn sha ctime
        (reverse_domain_name o (reverse_dns_lookup o conn.ip)) s.config) := by
  have hg := update_snitch_get_exe o s proc conn sha ctime
  rw [h] at hg
  exact hg

/-- Specialization of `update_snitch_get_exe` to a present exe. -/
theorem update_snitch_get_exe_some (o : Oracles) (s : SnitchState) (proc : ProcInfo)
    (conn : ConnInfo) (sha ctime : String) (e : ProcessEntry)
    (h : dictGet s.processes proc.exe = some e) :
    dictGet (update_snitch o s proc conn sha ctime).processes proc.exe =
      some (us_entry_update o proc conn sha ctime
        (reverse_domain_name o (reverse_dns_lookup o conn.ip)) s.config e) := by
  have hg := update_snitch_get_exe o s proc conn sha ctime
  rw [h] at hg
  exact hg

/-- A merge leaves every other exe's record untouched. -/
theorem update_snitch_get_ne (o : Oracles) (s : SnitchState) (p : ProcInfo) (c : ConnInfo)
    (sha t E : String) (hE : E ≠ p.exe) :
    dictGet (update_snitch o s p c sha t).processes E = dictGet s.processes E := by
  unfold update_snitch
  rw [us_remote_processes, us_processes_get_ne _ _ _ _ _ _ _ _ (Ne.symm hE),
    us_names_processes, us_latest_processes]

/-- After any merge, the record under the event's exe stores the merge
timestamp as its last seen time. -/
theorem update_snitch_lastSeen_exe (o : Oracles) (s : SnitchState) (proc : ProcInfo)
    (conn : ConnInfo) (sha ctime : String) :
    ∃ e, dictGet (update_snitch o s proc conn sha ctime).processes proc.exe = some e ∧
      e.lastSeen = ctime := by
  refine ⟨_, update_snitch_get_exe o s proc conn sha ctime, ?_⟩
  cases h : dictGet s.processes proc.exe
  · exact newProcessEntry_lastSeen ..
  · exact us_entry_update_lastSeen ..

/-- Claim C7: across two successive merges on the same exe, days seen
increases by exactly 1 iff the first three whitespace tokens of the stored
last-seen timestamp (the first merge's timestamp) differ from the second
merge's timestamp, and days seen never decreases under any merge. -/
theorem update_snitch_days_seen_claim (o1 o2 : Oracles) (s : SnitchState)
    (p1 p2 : ProcInfo) (c1 c2 : ConnInfo) (h1 h2 t1 t2 : String)
    (hexe : p2.exe = p1.exe) :
    (∃ e1 e2,
      dictGet (update_snitch o1 s p1 c1 h1 t1).processes p1.exe = some e1 ∧
      dictGet (update_snitch o2 (update_snitch o1 s p1 c1 h1 t1) p2 c2 h2 t2).processes
        p1.exe = some e2 ∧
      e1.lastSeen = t1 ∧
      e2.daysSeen = e1.daysSeen +
        (if (pySplitWs t2).take 3 ≠ (pySplitWs t1).take 3 then 1 else 0)) ∧
    (∀ (o : Oracles) (s2 : SnitchState) (p : ProcInfo) (c : ConnInfo) (sha t E : String)
      (e e2 : ProcessEntry), dictGet s2.processes E = some e →
      dictGet (update_snitch o s2 p c sha t).processes E = some e2 →
      e.daysSeen ≤ e2.daysSeen) := by
  constructor
  · obtain ⟨e1, hg1, hl1⟩ := update_snitch_lastSeen_exe o1 s p1 c1 h1 t1
    have hg1b : dictGet (update_snitch o1 s p1 c1 h1 t1).processes p2.exe = some e1 := by
      rw [hexe]
      exact hg1
    have hg2 := update_snitch_get_exe_some o2 (update_snitch o1 s p1 c1 h1 t1)
      p2 c2 h2 t2 e1 hg1b
    refine ⟨e1, us_entry_update o2 p2 c2 h2 t2
      (reverse_domain_name o2 (reverse_dns_lookup o2 c2.ip))
      (update_snitch o1 s p1 c1 h1 t1).config e1, hg1, ?_, hl1, ?_⟩
    · rw [← hexe]
      exact hg2
    · rw [us_entry_update_daysSeen, hl1]
  · intro o s2 p c sha t E e e2 hgete hget2
    by_cases hE : E = p.exe
    · subst hE
      rw [update_snitch_get_exe_some o s2 p c sha t e hgete] at hget2
      obtain rfl := Option.some.inj hget2
      rw [us_entry_update_daysSeen]
      exact Nat.le_add_right ..
    · rw [update_snitch_get_ne _ _ _ _ _ _ _ hE, hgete] at hget2
      obtain rfl := Option.some.inj hget2
      exact Nat.le_refl _

/-- Witness for C7: two merges on the same exe across the day boundary of
spec scenario S4; the theorem instance yields the incremented day count. -/
theorem update_snitch_days_seen_claim_witness :
    ∃ e1 e2,
      dictGet (update_snitch testOracle emptySnitch ⟨"x", "/bin/x", "x", 1⟩
        ⟨"1.2.3.4", 80⟩ "sh" "Mon Jan  1 23:59:59 2024").processes "/bin/x" = some e1 ∧
      dictGet (update_snitch testOracle
        (update_snitch testOracle emptySnitch ⟨"x", "/bin/x", "x", 1⟩
          ⟨"1.2.3.4", 80⟩ "sh" "Mon Jan  1 23:59:59 2024")
        ⟨"x", "/bin/x", "x", 1⟩ ⟨"1.2.3.4", 80⟩ "sh"
        "Tue Jan  2 00:00:01 2024").processes "/bin/x" = some e2 ∧
      e1.lastSeen = "Mon Jan  1 23:59:59 2024" ∧
      e2.daysSeen = e1.daysSeen +
        (if (pySplitWs "Tue Jan  2 00:00:01 2024").take 3 ≠
            (pySplitWs "Mon Jan  1 23:59:59 2024").take 3 then 1 else 0) :=
  (update_snitch_days_seen_claim testOracle testOracle emptySnitch
    ⟨"x", "/bin/x", "x", 1⟩ ⟨"x", "/bin/x", "x", 1⟩ ⟨"1.2.3.4", 80⟩ ⟨"1.2.3.4", 80⟩
    "sh" "sh" "Mon Jan  1 23:59:59 2024" "Tue Jan  2 00:00:01 2024" rfl).1

/-- When every unlog entry is a string, the port test of the unlog rule
never matches (the port is a Python int), so permission reduces to the
name not being listed. -/
theorem unlogPermits_of_all_str (cfg : Config) (p : ProcInfo) (c : ConnInfo)
    (hstr : ∀ v ∈ cfg.remoteAddressUnlog, PyVal.isStr v = true) :
    unlogPermits cfg p c = !decide (PyVal.str p.name ∈ cfg.remoteAddressUnlog) := by
  unfold unlogPermits
  have hint : PyVal.int c.port ∉ cfg.remoteAddressUnlog := by
    intro hmem
    have := hstr _ hmem
    simp [PyVal.isStr] at this
  simp [hint]

/-- The Remote Addresses section on a missing key: a new key is created iff
the unlog rule permits. -/
theorem us_remote_get_new (s : SnitchState) (p : ProcInfo) (c : ConnInfo)
    (t rdns : String) (hkey : dictGet s.remoteAddresses rdns = none) :
    dictGet (us_remote s p c t rdns).remoteAddresses rdns =
      if unlogPermits s.config p c = true then
        some ["First connection: " ++ t, p.exe]
      else none := by
  unfold us_remote
  rw [hkey]
  dsimp only
  by_cases hp : unlogPermits s.config p c = true
  · rw [if_pos hp, if_pos hp, dictGet_dictSet_self]
  · rw [if_neg hp, if_neg hp]
    exact hkey

/-- Remote Addresses after a full merge on a previously missing key. -/
theorem update_snitch_remote_new (o : Oracles) (s : SnitchState) (proc : ProcInfo)
    (conn : ConnInfo) (sha ctime rdns : String)
    (hrdns : rdns = reverse_domain_name o (reverse_dns_lookup o conn.ip))
    (hkey : dictGet s.remoteAddresses rdns = none) :
    dictGet (update_snitch o s proc conn sha ctime).remoteAddresses rdns =
      if unlogPermits s.config proc conn = true then
        some ["First connection: " ++ ctime, proc.exe]
      else none := by
  subst hrdns
  have hkey2 : dictGet (us_processes o (us_names (us_latest s proc ctime) proc conn) proc
      conn sha ctime (reverse_domain_name o (reverse_dns_lookup o conn.ip))).remoteAddresses
      (reverse_domain_name o (reverse_dns_lookup o conn.ip)) = none := by
    rw [us_processes_remote, us_names_remote, us_latest_remote]
    exact hkey
  have hres := us_remote_get_new
    (us_processes o (us_names (us_latest s proc ctime) proc conn) proc conn sha ctime
      (reverse_domain_name o (reverse_dns_lookup o conn.ip))) proc conn ctime
    (reverse_domain_name o (reverse_dns_lookup o conn.ip)) hkey2
  rw [us_processes_config, us_names_config, us_latest_config] at hres
  exact hres

/-- Claim C2 counterexample: with unlog = ["80"] (the port's string form)
and a conn event on port 80 from a name not in the unlog list, the remote
address is NOT suppressed — the fresh record lists the reversed dns and
Remote Addresses gains the key — because the source compares the integer
port against the string list and 80 never equals "80". -/
theorem update_snitch_port_unlog_cex :
    entryHasRdns (update_snitch testOracle c2UnlogState ⟨"x", "/bin/x", "x", 1⟩
      ⟨"1.2.3.4", 80⟩ "h1" "t1") "/bin/x" "1.2.3.4" = true ∧
    dictHasKey (update_snitch testOracle c2UnlogState ⟨"x", "/bin/x", "x", 1⟩
      ⟨"1.2.3.4", 80⟩ "h1" "t1").remoteAddresses "1.2.3.4" = true := by
  decide

/-- Claim C2 (amended): for a merge creating a new Processes entry whose
reversed dns is not yet a Remote Addresses key, and with every unlog entry
a string (as the config stores them), the reversed dns is omitted from the
new record and no Remote Addresses key is created iff the process name
appears in the unlog list; the port clause of the source test is inert
because an integer port never equals a string. -/
theorem update_snitch_unlog_name_only (o : Oracles) (s : SnitchState) (proc : ProcInfo)
    (conn : ConnInfo) (sha ctime rdns : String)
    (hrdns : rdns = reverse_domain_name o (reverse_dns_lookup o conn.ip))
    (hstr : ∀ v ∈ s.config.remoteAddressUnlog, PyVal.isStr v = true)
    (hexe : dictGet s.processes proc.exe = none)
    (hkey : dictGet s.remoteAddresses rdns = none) :
    ((∀ e, dictGet (update_snitch o s proc conn sha ctime).processes proc.exe = some e →
        rdns ∉ e.remoteAddresses) ∧
      dictGet (update_snitch o s proc conn sha ctime).remoteAddresses rdns = none)
    ↔ PyVal.str proc.name ∈ s.config.remoteAddressUnlog := by
  have hperm := unlogPermits_of_all_str s.config proc conn hstr
  have hge := update_snitch_get_exe_none o s proc conn sha ctime hexe
  rw [← hrdns] at hge
  have hra := update_snitch_remote_new o s proc conn sha ctime rdns hrdns hkey
  by_cases hmem : PyVal.str proc.name ∈ s.config.remoteAddressUnlog
  · simp only [hmem, iff_true]
    have hpf : unlogPermits s.config proc conn = false := by
      rw [hperm]
      simp [hmem]
    constructor
    · intro e he
      rw [hge] at he
      obtain rfl := Option.some.inj he
      rw [newProcessEntry_remoteAddresses, hpf]
      simp
    · rw [hra, hpf]
      simp
  · simp only [hmem, iff_false]
    have hpt : unlogPermits s.config proc conn = true := by
      rw [hperm]
      simp [hmem]
    intro hcontra
    rw [hra, hpt] at hcontra
    simp at hcontra

/-- Witness for the amended C2 theorem: unlog = ["firefox"], a conn event
from the process "firefox"; the suppression equivalence holds with a true
right-hand side. -/
theorem update_snitch_unlog_name_only_witness :
    ((∀ e, dictGet (update_snitch testOracle emptySnitch
        ⟨"firefox", "/bin/ff", "ff", 1⟩ ⟨"1.2.3.4", 80⟩ "h1" "t1").processes "/bin/ff" =
          some e → "1.2.3.4" ∉ e.remoteAddresses) ∧
      dictGet (update_snitch testOracle emptySnitch
        ⟨"firefox", "/bin/ff", "ff", 1⟩ ⟨"1.2.3.4", 80⟩ "h1" "t1").remoteAddresses
        "1.2.3.4" = none)
    ↔ PyVal.str "firefox" ∈ emptySnitch.config.remoteAddressUnlog :=
  update_snitch_unlog_name_only testOracle emptySnitch
    ⟨"firefox", "/bin/ff", "ff", 1⟩ ⟨"1.2.3.4", 80⟩ "h1" "t1" "1.2.3.4"
    (by decide) (by decide) (by decide) (by decide)

/-- The Names section never removes keys or list members: any registered
name/exe pair survives with a superset list. -/
theorem us_names_get_mono (s : SnitchState) (p : ProcInfo) (c : ConnInfo) (n : String)
    (l : List String) (h : dictGet s.names n = some l) :
    ∃ l2, dictGet (us_names s p c).names n = some l2 ∧ ∀ x ∈ l, x ∈ l2 := by
  unfold us_names
  cases hn : dictGet s.names p.name with
  | some exes =>
    dsimp only
    by_cases hm : p.exe ∈ exes
    · rw [if_pos hm]
      exact ⟨l, h, fun x hx => hx⟩
    · rw [if_neg hm]
      by_cases hEq : p.name = n
      · subst hEq
        rw [h] at hn
        obtain rfl := Option.some.inj hn
        refine ⟨l ++ [p.exe], dictGet_dictSet_self .., ?_⟩
        intro x hx
        exact List.mem_append_left _ hx
      · rw [dictGet_dictSet_ne _ _ _ _ hEq]
        exact ⟨l, h, fun x hx => hx⟩
  | none =>
    dsimp only
    by_cases hc : c.ip ≠ "" ∨ c.port ≠ 0
    · rw [if_pos hc]
      by_cases hEq : p.name = n
      · subst hEq
        rw [h] at hn
        exact absurd hn (by simp)
      · rw [dictGet_dictSet_ne _ _ _ _ hEq]
        exact ⟨l, h, fun x hx => hx⟩
    · rw [if_neg hc]
      exact ⟨l, h, fun x hx => hx⟩

/-- After the Names section, the event's exe is registered under its name
whenever the name was already known or the event is a real connection. -/
theorem us_names_get_self (s : SnitchState) (p : ProcInfo) (c : ConnInfo)
    (hc : (dictGet s.names p.name).isSome = true ∨ c.ip ≠ "" ∨ c.port ≠ 0) :
    ∃ l2, dictGet (us_names s p c).names p.name = some l2 ∧ p.exe ∈ l2 := by
  unfold us_names
  cases hn : dictGet s.names p.name with
  | some exes =>
    dsimp only
    by_cases hm : p.exe ∈ exes
    · rw [if_pos hm]
      exact ⟨exes, hn, hm⟩
    · rw [if_neg hm]
      refine ⟨exes ++ [p.exe], dictGet_dictSet_self .., ?_⟩
      simp
  | none =>
    have hc2 : c.ip ≠ "" ∨ c.port ≠ 0 := by
      rcases hc with hc | hc | hc
      · rw [hn] at hc
        simp at hc
      · exact Or.inl hc
      · exact Or.inr hc
    dsimp only
    rw [if_pos hc2]
    refine ⟨[p.exe], dictGet_dictSet_self .., ?_⟩
    simp

/-- Claim C5 counterexample: the invariant holds in the empty ledger but
fails after a single exec-only merge (conn ip empty and port zero) that
creates a new Processes entry: the Names section skips exec-only events
with unknown names, so the new record's name is not a Names key. -/
theorem update_snitch_names_inv_cex :
    namesInv emptySnitch ∧
    ¬ namesInv (update_snitch testOracle emptySnitch ⟨"foo", "/bin/foo", "foo", 1⟩
      ⟨"", 0⟩ "h1" "t1") := by
  decide

/-- Claim C5 (amended): a merge preserves the name/exe invariant provided
the Processes keys are duplicate-free, a record-creating event has a known
name or is a real connection (not exec-only with an unknown name), and a
record-updating event's observed name occurs in the stored name (so no
" alternative=" suffix is appended). -/
theorem update_snitch_preserves_names_inv (o : Oracles) (s : SnitchState) (proc : ProcInfo)
    (conn : ConnInfo) (sha ctime : String)
    (hinv : namesInv s)
    (hkeys : (s.processes.map Prod.fst).Nodup)
    (hnew : dictGet s.processes proc.exe = none →
      (dictGet s.names proc.name).isSome = true ∨ conn.ip ≠ "" ∨ conn.port ≠ 0)
    (hold : ∀ e, dictGet s.processes proc.exe = some e → pySubstr proc.name e.name = true) :
    namesInv (update_snitch o s proc conn sha ctime) := by
  intro pe hpe
  have hNames : (update_snitch o s proc conn sha ctime).names =
      (us_names (us_latest s proc ctime) proc conn).names := by
    unfold update_snitch
    rw [us_remote_names, us_processes_names]
  have hProcs : (update_snitch o s proc conn sha ctime).processes =
      (us_processes o (us_names (us_latest s proc ctime) proc conn) proc conn sha ctime
        (reverse_domain_name o (reverse_dns_lookup o conn.ip))).processes := by
    unfold update_snitch
    rw [us_remote_processes]
  have hs2p : (us_names (us_latest s proc ctime) proc conn).processes = s.processes := by
    rw [us_names_processes, us_latest_processes]
  have hs1n : (us_latest s proc ctime).names = s.names := us_latest_names ..
  rw [hProcs] at hpe
  unfold entryOk
  rw [hNames]
  unfold us_processes at hpe
  rw [hs2p] at hpe
  cases hP : dictGet s.processes proc.exe with
  | none =>
    rw [hP] at hpe
    dsimp only at hpe
    rcases mem_dictSet hpe with hpe | hpe
    · subst hpe
      dsimp only
      rw [newProcessEntry_name]
      obtain ⟨l2, hg, hm⟩ := us_names_get_self (us_latest s proc ctime) proc conn
        (by rw [hs1n]; exact hnew hP)
      rw [hg]
      exact hm
    · have hOk := hinv pe hpe
      unfold entryOk at hOk
      cases hG : dictGet s.names pe.2.name with
      | none =>
        rw [hG] at hOk
        exact hOk.elim
      | some l =>
        rw [hG] at hOk
        obtain ⟨l2, hg2, hsub⟩ := us_names_get_mono (us_latest s proc ctime) proc conn
          pe.2.name l (by rw [hs1n]; exact hG)
        rw [hg2]
        exact hsub _ hOk
  | some e0 =>
    rw [hP] at hpe
    dsimp only at hpe
    rcases mem_dictModify hpe with ⟨q, hq, hqk, rfl⟩ | ⟨w, hw, rfl⟩
    · have hOk := hinv pe hq
      unfold entryOk at hOk
      cases hG : dictGet s.names pe.2.name with
      | none =>
        rw [hG] at hOk
        exact hOk.elim
      | some l =>
        rw [hG] at hOk
        obtain ⟨l2, hg2, hsub⟩ := us_names_get_mono (us_latest s proc ctime) proc conn
          pe.2.name l (by rw [hs1n]; exact hG)
        rw [hg2]
        exact hsub _ hOk
    · have hw0 : dictGet s.processes proc.exe = some w :=
        dictGet_of_mem_nodupKeys hkeys hw
      dsimp only
      rw [us_entry_update_name, if_pos (hold w hw0)]
      have hOk := hinv (proc.exe, w) (dictGet_mem hw0)
      unfold entryOk at hOk
      cases hG : dictGet s.names w.name with
      | none =>
        rw [hG] at hOk
        exact hOk.elim
      | some l =>
        rw [hG] at hOk
        obtain ⟨l2, hg2, hsub⟩ := us_names_get_mono (us_latest s proc ctime) proc conn
          w.name l (by rw [hs1n]; exact hG)
        rw [hg2]
        exact hsub _ hOk

/-- Witness for the amended C5 theorem: a conn merge on a consistent
one-process ledger whose observed name matches the stored name. -/
theorem update_snitch_preserves_names_inv_witness :
    namesInv (update_snitch testOracle wNamesState ⟨"n1", "e1", "c", 1⟩
      ⟨"1.2.3.4", 80⟩ "h" "t1") :=
  update_snitch_preserves_names_inv testOracle wNamesState ⟨"n1", "e1", "c", 1⟩
    ⟨"1.2.3.4", 80⟩ "h" "t1" (by decide) (by decide) (by decide)
    (by
      intro e he
      rw [show dictGet wNamesState.processes "e1" = some wNamesEntry from rfl] at he
      obtain rfl := Option.some.inj he
      decide)

/-! Order facts for the Python string comparison used by `list.sort()`. -/

theorem charListLe_total : ∀ as bs : List Char,
    charListLe as bs = true ∨ charListLe bs as = true
  | [], _ => Or.inl rfl
  | _ :: _, [] => Or.inr rfl
  | a :: as, b :: bs => by
    by_cases hab : a = b
    · subst hab
      simp only [charListLe, if_pos rfl]
      exact charListLe_total as bs
    · simp only [charListLe, if_neg hab, if_neg (Ne.symm hab)]
      rcases lt_or_gt_of_ne hab with h | h
      · exact Or.inl (decide_eq_true h)
      · exact Or.inr (decide_eq_true h)

theorem charListLe_trans : ∀ as bs cs : List Char, charListLe as bs = true →
    charListLe bs cs = true → charListLe as cs = true
  | [], _, _, _, _ => rfl
  | _ :: _, [], _, h1, _ => absurd h1 (by simp [charListLe])
  | _ :: _, _ :: _, [], _, h2 => absurd h2 (by simp [charListLe])
  | a :: as, b :: bs, c :: cs, h1, h2 => by
    simp only [charListLe] at h1 h2 ⊢
    by_cases hab : a = b
    · subst hab
      rw [if_pos rfl] at h1
      by_cases hbc : a = c
      · subst hbc
        rw [if_pos rfl] at h2 ⊢
        exact charListLe_trans as bs cs h1 h2
      · rw [if_neg hbc] at h2 ⊢
        exact h2
    · rw [if_neg hab] at h1
      have hlt1 : a < b := of_decide_eq_true h1
      by_cases hbc : b = c
      · subst hbc
        rw [if_neg hab]
        exact h1
      · rw [if_neg hbc] at h2
        have hlt2 : b < c := of_decide_eq_true h2
        have hac : a < c := lt_trans hlt1 hlt2
        rw [if_neg (ne_of_lt hac)]
        exact decide_eq_true hac

instance : IsTotal String (fun x y => pyStrLe x y = true) :=
  ⟨fun a b => charListLe_total a.toList b.toList⟩

instance : IsTrans String (fun x y => pyStrLe x y = true) :=
  ⟨fun a b c => charListLe_trans a.toList b.toList c.toList⟩

/-! Counting lemmas used for duplicate-freeness of the cmdline list. -/

theorem count_le_one_of_nodup {α : Type} [BEq α] [LawfulBEq α] {l : List α}
    (h : l.Nodup) (x : α) : l.count x ≤ 1 := by
  induction l with
  | nil => simp
  | cons a t ih =>
    rw [List.nodup_cons] at h
    rw [List.count_cons]
    by_cases hx : x = a
    · subst hx
      have h0 : t.count x = 0 := by
        rw [List.count_eq_zero]
        exact h.1
      simp [h0]
    · have hle := ih h.2
      have hbeq : ¬ ((a == x) = true) := by simpa using Ne.symm hx
      rw [if_neg hbeq]
      omega

theorem nodup_of_count_le_one {α : Type} [BEq α] [LawfulBEq α] {l : List α}
    (h : ∀ x, l.count x ≤ 1) : l.Nodup := by
  induction l with
  | nil => exact List.nodup_nil
  | cons a t ih =>
    rw [List.nodup_cons]
    constructor
    · intro hmem
      have h1 := h a
      rw [List.count_cons_self] at h1
      have h2 : 0 < t.count a := List.count_pos_iff.mpr hmem
      omega
    · apply ih
      intro x
      have h1 := h x
      rw [List.count_cons] at h1
      split at h1 <;> omega

theorem count_set_le {α : Type} [BEq α] [LawfulBEq α] {x p : α} (hx : x ≠ p) :
    ∀ (l : List α) (i : Nat), (l.set i p).count x ≤ l.count x
  | [], _ => by simp
  | a :: t, 0 => by
    simp only [List.set]
    rw [List.count_cons, List.count_cons]
    have hbeq : ¬ ((p == x) = true) := by simpa using (Ne.symm hx)
    rw [if_neg hbeq]
    split <;> omega
  | a :: t, i + 1 => by
    simp only [List.set]
    rw [List.count_cons, List.count_cons]
    have := count_set_le hx t i
    omega

theorem dedupeLoop_count_self (p : String) (l : List String) :
    (dedupeLoop p l).count p ≤ 1 := by
  induction l using dedupeLoop.induct p with
  | case1 l h ih =>
    rw [dedupeLoop, dif_pos h]
    exact ih
  | case2 l h =>
    rw [dedupeLoop, dif_neg h]
    omega

theorem dedupeLoop_count_ne (p x : String) (hx : x ≠ p) (l : List String) :
    (dedupeLoop p l).count x = l.count x := by
  induction l using dedupeLoop.induct p with
  | case1 l h ih =>
    rw [dedupeLoop, dif_pos h, ih]
    exact List.count_erase_of_ne hx l
  | case2 l h =>
    rw [dedupeLoop, dif_neg h]

theorem dedupeLoop_length_le (p : String) (l : List String) :
    (dedupeLoop p l).length ≤ l.length := by
  induction l using dedupeLoop.induct p with
  | case1 l h ih =>
    rw [dedupeLoop, dif_pos h]
    have := List.length_erase_of_mem (List.count_pos_iff.mp (by omega : 0 < l.count p))
    omega
  | case2 l h =>
    rw [dedupeLoop, dif_neg h]

/-! Shape facts about `get_common_pattern`. -/

theorem get_common_pattern_length (o : Oracles) (a : String) (l : List String) :
    (get_common_pattern o a l).length ≤ l.length + 1 := by
  unfold get_common_pattern
  cases hm : o.closeMatch a l with
  | none => simp
  | some b =>
    dsimp only
    have h1 := dedupeLoop_length_le
      (common_pattern_of a (o.matchingBlocks a.toLower b.toLower))
      (l.set (l.indexOf b)
        (common_pattern_of a (o.matchingBlocks a.toLower b.toLower)))
    rw [List.length_set] at h1
    omega

theorem get_common_pattern_nodup (o : Oracles) (a : String) (l : List String)
    (hnd : l.Nodup) (ha : a ∉ l) : (get_common_pattern o a l).Nodup := by
  unfold get_common_pattern
  cases hm : o.closeMatch a l with
  | none =>
    dsimp only
    simp [List.nodup_append, hnd, ha]
  | some b =>
    dsimp only
    apply nodup_of_count_le_one
    intro x
    by_cases hx : x = common_pattern_of a (o.matchingBlocks a.toLower b.toLower)
    · subst hx
      exact dedupeLoop_count_self ..
    · rw [dedupeLoop_count_ne _ _ hx]
      calc (l.set (l.indexOf b)
            (common_pattern_of a (o.matchingBlocks a.toLower b.toLower))).count x
          ≤ l.count x := count_set_le hx l (l.indexOf b)
        _ ≤ 1 := count_le_one_of_nodup hnd x

/-- Claim C8: inserting a new cmdline through the similarity rule
(`get_common_pattern` with cutoff 0.8, then `sort`) grows the list by at
most one element, leaves it sorted (in Python's lexicographic string
order), and leaves it free of exact duplicates; the hypotheses record that
the stored list was duplicate-free (as all lists built by this rule are)
and that the new cmdline is not already present (the guard under which
`update_snitch` calls the rule). -/
theorem get_common_pattern_insert_spec (o : Oracles) (a : String) (l : List String)
    (hnd : l.Nodup) (ha : a ∉ l) :
    (pySortStr (get_common_pattern o a l)).length ≤ l.length + 1 ∧
    List.Sorted (fun x y => pyStrLe x y = true) (pySortStr (get_common_pattern o a l)) ∧
    (pySortStr (get_common_pattern o a l)).Nodup := by
  have hperm : List.Perm (pySortStr (get_common_pattern o a l))
      (get_common_pattern o a l) :=
    List.perm_insertionSort _ _
  refine ⟨?_, ?_, ?_⟩
  · rw [hperm.length_eq]
    exact get_common_pattern_length o a l
  · exact List.sorted_insertionSort _ _
  · rw [hperm.nodup_iff]
    exact get_common_pattern_nodup o a l hnd ha

/-- Witness for C8: inserting "b" into the singleton list ["a"] with no
close match appends it; the sorted result satisfies all three bounds. -/
theorem get_common_pattern_insert_spec_witness :
    (pySortStr (get_common_pattern testOracle "b" ["a"])).length ≤ ["a"].length + 1 ∧
    List.Sorted (fun x y => pyStrLe x y = true)
      (pySortStr (get_common_pattern testOracle "b" ["a"])) ∧
    (pySortStr (get_common_pattern testOracle "b" ["a"])).Nodup :=
  get_common_pattern_insert_spec testOracle "b" ["a"] (by decide) (by decide)

end Picosnitch
